import Mathlib

/-!
# Verification of `telegram_media_sync.py` (sync engine `download_media`)

A shallow embedding of the synchronization engine of
`src/telegram_media_sync.py` (function `download_media`, lines 69-124),
together with the dedup-ledger load (lines 78-81) and the filesystem
probe (lines 82-83, 97-98).

Modelling choices:
* File contents and filenames are `List Char` (Python `str`).
* Message IDs are `Nat`; `f"{message.id}"` is decimal rendering
  (`natToChars`), faithfully WITHOUT a trailing line break, exactly as the
  source writes it.
* The ledger file object (`record_fp = open(record_file, 'a')`) is a
  `Handle` with a `durable` part (what is on disk / already flushed) and a
  `buffer` part (Python's userspace write buffer): `write` appends to the
  buffer, `close` flushes the buffer into `durable` and marks the handle
  closed.  The source never calls `flush`, and `close` is only reached on
  the normal exit path (line 123 has no `try/finally`).
* The Telethon client is an external collaborator: the message sequence
  produced by `iter_messages` is a `List Message` parameter, and
  `client.download_media` is a fetch oracle `Nat → Nat → FetchResult`
  (message id, attempt number).  A Python exception escaping the message
  loop is modelled by the `Bool` "aborted" flag of `runLoop`.
* Ghost logs (`fetchCalls`, `ledgerWrites`) record, in order, each
  invocation of the fetcher and each `record_fp.write` call; they change
  exactly when the corresponding source line executes.
-/

/-- Decimal digit character, `d %% 10`-style table (used for `str(int)`). -/
def decDigit : Nat → Char
  | 0 => '0' | 1 => '1' | 2 => '2' | 3 => '3' | 4 => '4'
  | 5 => '5' | 6 => '6' | 7 => '7' | 8 => '8' | _ => '9'

/-- ASCII digit test, the fragment of Python `str.isdigit` our contents use. -/
def isDigitC (c : Char) : Bool := 48 ≤ c.toNat && c.toNat ≤ 57

/-- Whitespace stripped by Python `str.strip()` (ASCII part). -/
def isWSC (c : Char) : Bool :=
  c == ' ' || c == '\t' || c == '\n' || c == '\r' || c.toNat == 11 || c.toNat == 12

/-- Fuel-driven core of decimal rendering: digits of `n`, most significant
first.  Structural in the fuel so that the kernel can evaluate it. -/
def natToCharsCore : Nat → Nat → List Char
  | 0, _ => []
  | fuel + 1, n => if n = 0 then [] else natToCharsCore fuel (n / 10) ++ [decDigit (n % 10)]

/-- `str(n)` for a natural number: Python decimal rendering. -/
def natToChars (n : Nat) : List Char :=
  if n = 0 then ['0'] else natToCharsCore (n + 1) n

/-- `int(s)` on an all-digit string: left fold over decimal digits. -/
def parseChars (l : List Char) : Nat :=
  l.foldl (fun a c => a * 10 + (c.toNat - 48)) 0

/-- Python `s.startswith(p)` on char lists. -/
def startsWith : List Char → List Char → Bool
  | _, [] => true
  | [], _ :: _ => false
  | c :: cs, p :: ps => c == p && startsWith cs ps

/-- Split a char list at every occurrence of `sep` (like `str.split(sep)`;
used with `'\n'` it matches Python's per-line file iteration up to the
final `strip`, and with `'/'` it yields `os.path.basename` pieces). -/
def splitOnC (sep : Char) : List Char → List (List Char)
  | [] => [[]]
  | c :: cs =>
    match splitOnC sep cs with
    | [] => [[]]
    | l :: ls => if c == sep then [] :: l :: ls else (c :: l) :: ls

/-- Python `str.strip()`: drop whitespace from both ends. -/
def trimChars (l : List Char) : List Char :=
  ((l.dropWhile isWSC).reverse.dropWhile isWSC).reverse

/-- `os.path.basename`: the part after the last `'/'`. -/
def basename (p : List Char) : List Char := (splitOnC '/' p).getLastD []

/-- The guard `line.strip().isdigit()` of line 81. -/
def goodLine (l : List Char) : Bool :=
  !(trimChars l).isEmpty && (trimChars l).all isDigitC

/-- Lines 80-81: `{int(line.strip()) for line in rf if line.strip().isdigit()}`. -/
def ledgerLoadContent (c : List Char) : Finset Nat :=
  ((splitOnC '\n' c).filterMap
    (fun l => if goodLine l then some (parseChars (trimChars l)) else none)).toFinset

/-- Lines 78-81: the ledger set is empty when the record file is absent
(`os.path.exists`), otherwise parsed from its content. -/
def ledgerLoad : Option (List Char) → Finset Nat
  | none => ∅
  | some c => ledgerLoadContent c

/-- The per-file probe test of line 98:
`f.startswith(f"{message.id}.") or f == str(message.id)`. -/
def probeMatch (id : Nat) (f : List Char) : Bool :=
  startsWith f (natToChars id ++ ['.']) || f == natToChars id

/-- The ledger file object: `durable` is flushed/on-disk content, `buffer`
the unflushed userspace buffer, `isOpen` whether `close` has run. -/
structure Handle where
  durable : List Char
  buffer : List Char
  isOpen : Bool
deriving DecidableEq, Repr

/-- `record_fp.write(s)`: appends to the userspace buffer only. -/
def Handle.write (h : Handle) (s : List Char) : Handle :=
  { h with buffer := h.buffer ++ s }

/-- `record_fp.close()`: flushes the buffer into the durable content and
closes the handle. -/
def Handle.close (h : Handle) : Handle :=
  { durable := h.durable ++ h.buffer, buffer := [], isOpen := false }

/-- A message as the engine sees it: its `id` and the truthiness of
`message.media`. -/
structure Message where
  id : Nat
  hasMedia : Bool
deriving DecidableEq, Repr

/-- Outcome of one `client.download_media` invocation: the saved artifact's
path, a `FloodWaitError` carrying its wait, or any other exception. -/
inductive FetchResult where
  | success (path : List Char)
  | rateLimited (wait : Nat)
  | failure
deriving DecidableEq, Repr

/-- Engine state during one run of `download_media`:
`downloadedIds` the in-memory set, `recordFp` the append handle,
`existingFiles` the in-memory directory snapshot, `count` the new-download
counter, plus the ghost logs of fetcher invocations and `record_fp.write`
calls (message ids, in order). -/
structure SyncState where
  downloadedIds : Finset Nat
  recordFp : Handle
  existingFiles : List (List Char)
  count : Nat
  fetchCalls : List Nat
  ledgerWrites : List Nat
deriving DecidableEq

/-- The settle action shared by lines 101-102 and 108-109 / 118-119: add the
id to the in-memory set and write its decimal form (NO line break — exactly
`f"{message.id}"`) to the ledger handle. -/
def settleUpdate (s : SyncState) (id : Nat) : SyncState :=
  { s with downloadedIds := insert id s.downloadedIds,
           recordFp := s.recordFp.write (natToChars id),
           ledgerWrites := s.ledgerWrites ++ [id] }

/-- Lines 106-111 / 116-120: a successful download settles the message,
increments the counter and extends the snapshot with the artifact's
basename. -/
def downloadUpdate (s : SyncState) (id : Nat) (b : List Char) : SyncState :=
  { settleUpdate s id with count := s.count + 1,
                           existingFiles := s.existingFiles ++ [b] }

/-- Ghost: record one invocation of the fetcher for message `id`. -/
def logFetch (s : SyncState) (id : Nat) : SyncState :=
  { s with fetchCalls := s.fetchCalls ++ [id] }

/-- The body of the `async for` loop, lines 90-122, for one message.
Returns the new state and whether an exception propagates out of the loop
(which happens exactly when the retry inside the `except FloodWaitError`
block fails: that exception is not caught by the sibling
`except Exception`). -/
def processMessage (fetch : Nat → Nat → FetchResult) (s : SyncState) (m : Message) :
    SyncState × Bool :=
  if m.hasMedia = false then (s, false)
  else if m.id ∈ s.downloadedIds then (s, false)
  else if s.existingFiles.any (probeMatch m.id) = true then (settleUpdate s m.id, false)
  else
    match fetch m.id 0 with
    | FetchResult.success p => (downloadUpdate (logFetch s m.id) m.id (basename p), false)
    | FetchResult.rateLimited _ =>
      match fetch m.id 1 with
      | FetchResult.success p =>
          (downloadUpdate (logFetch (logFetch s m.id) m.id) m.id (basename p), false)
      | _ => (logFetch (logFetch s m.id) m.id, true)
    | FetchResult.failure => (logFetch s m.id, false)

/-- The message loop: process messages in order until exhaustion or until an
exception propagates (`true` = aborted). -/
def runLoop (fetch : Nat → Nat → FetchResult) : SyncState → List Message → SyncState × Bool
  | s, [] => (s, false)
  | s, m :: ms =>
    match processMessage fetch s m with
    | (s', false) => runLoop fetch s' ms
    | (s', true) => (s', true)

/-- Lines 77-88: load the ledger, open the handle in append mode (its
durable part is the existing file content), take the directory snapshot. -/
def initState (ledgerFile : Option (List Char)) (dirListing : List (List Char)) : SyncState :=
  { downloadedIds := ledgerLoad ledgerFile,
    recordFp := { durable := ledgerFile.getD [], buffer := [], isOpen := true },
    existingFiles := dirListing,
    count := 0,
    fetchCalls := [],
    ledgerWrites := [] }

/-- `download_media` (lines 69-124) after channel resolution: run the loop
over the message sequence; `record_fp.close()` (line 123) is reached only
when no exception escaped the loop. -/
def download_media (fetch : Nat → Nat → FetchResult) (ledgerFile : Option (List Char))
    (dirListing : List (List Char)) (msgs : List Message) : SyncState × Bool :=
  match runLoop fetch (initState ledgerFile dirListing) msgs with
  | (s, false) => ({ s with recordFp := s.recordFp.close }, false)
  | (s, true) => (s, true)

/-- The ledger content produced by writing each ID as one line terminated by
a line break — the format the spec prescribes and `ledgerLoad` parses. -/
def linesOf : List Nat → List Char
  | [] => []
  | i :: is => natToChars i ++ '\n' :: linesOf is

/-- Concatenation of the decimal renderings of a list of IDs: the exact
bytes the source's `record_fp.write(f"{message.id}")` calls produce. -/
def writesChars : List Nat → List Char
  | [] => []
  | i :: is => natToChars i ++ writesChars is

lemma writesChars_append (a b : List Nat) :
    writesChars (a ++ b) = writesChars a ++ writesChars b := by
  induction a with
  | nil => rfl
  | cons i is ih => simp [writesChars, ih]

lemma decDigit_toNat (d : Nat) (h : d < 10) : (decDigit d).toNat = 48 + d := by
  interval_cases d <;> decide

lemma isDigitC_decDigit (d : Nat) (h : d < 10) : isDigitC (decDigit d) = true := by
  interval_cases d <;> decide

lemma isWSC_eq_false_of_isDigitC (c : Char) (h : isDigitC c = true) : isWSC c = false := by
  have h' : 48 ≤ c.toNat ∧ c.toNat ≤ 57 := by simpa [isDigitC] using h
  cases hws : isWSC c
  · rfl
  · exfalso
    simp only [isWSC, Bool.or_eq_true, beq_iff_eq] at hws
    rcases hws with ((((h1 | h1) | h1) | h1) | h1) | h1
    · subst h1; exact absurd h'.1 (by decide)
    · subst h1; exact absurd h'.1 (by decide)
    · subst h1; exact absurd h'.1 (by decide)
    · subst h1; exact absurd h'.1 (by decide)
    · omega
    · omega

lemma natToCharsCore_congr : ∀ f₁ f₂ n, n < f₁ → n < f₂ →
    natToCharsCore f₁ n = natToCharsCore f₂ n := by
  intro f₁
  induction f₁ with
  | zero => intro f₂ n h; omega
  | succ g ih =>
    intro f₂ n h₁ h₂
    match f₂, h₂ with
    | g₂ + 1, _ =>
      by_cases hn : n = 0
      · simp [natToCharsCore, hn]
      · have hd : n / 10 < n := Nat.div_lt_self (Nat.pos_of_ne_zero hn) (by omega)
        simp only [natToCharsCore, hn, if_false]
        rw [ih g₂ (n / 10) (by omega) (by omega)]

lemma natToCharsCore_all_digit : ∀ n f, n < f →
    ∀ c ∈ natToCharsCore f n, isDigitC c = true := by
  intro n
  induction n using Nat.strong_induction_on with
  | _ n ih =>
    intro f hf c hc
    match f, hf with
    | g + 1, _ =>
      by_cases hn : n = 0
      · simp [natToCharsCore, hn] at hc
      · have hd : n / 10 < n := Nat.div_lt_self (Nat.pos_of_ne_zero hn) (by omega)
        simp only [natToCharsCore, hn, if_false, List.mem_append, List.mem_singleton] at hc
        rcases hc with hc | hc
        · exact ih (n / 10) hd g (by omega) c hc
        · subst hc; exact isDigitC_decDigit _ (Nat.mod_lt _ (by omega))

lemma parseChars_natToCharsCore : ∀ n f, n < f →
    parseChars (natToCharsCore f n) = n := by
  intro n
  induction n using Nat.strong_induction_on with
  | _ n ih =>
    intro f hf
    match f, hf with
    | g + 1, _ =>
      by_cases hn : n = 0
      · simp [natToCharsCore, hn, parseChars]
      · have hd : n / 10 < n := Nat.div_lt_self (Nat.pos_of_ne_zero hn) (by omega)
        simp only [natToCharsCore, hn, if_false]
        unfold parseChars
        rw [List.foldl_append]
        have := ih (n / 10) hd g (by omega)
        unfold parseChars at this
        rw [this]
        simp only [List.foldl_cons, List.foldl_nil]
        rw [decDigit_toNat _ (Nat.mod_lt _ (by omega))]
        omega

lemma natToChars_all_digit (n : Nat) : ∀ c ∈ natToChars n, isDigitC c = true := by
  unfold natToChars
  by_cases hn : n = 0
  · simp only [hn, if_true, List.mem_singleton]
    intro c hc; subst hc; decide
  · simp only [hn, if_false]
    exact natToCharsCore_all_digit n (n + 1) (Nat.lt_succ_self n)

lemma parseChars_natToChars (n : Nat) : parseChars (natToChars n) = n := by
  unfold natToChars
  by_cases hn : n = 0
  · simp only [hn, if_true]; decide
  · simp only [hn, if_false]
    exact parseChars_natToCharsCore n (n + 1) (Nat.lt_succ_self n)

lemma natToChars_ne_nil (n : Nat) : natToChars n ≠ [] := by
  unfold natToChars
  by_cases hn : n = 0
  · simp [hn]
  · simp [natToCharsCore, hn]

lemma not_mem_natToChars_of_not_digit (c : Char) (hc : isDigitC c = false) (n : Nat) :
    c ∉ natToChars n := by
  intro h
  rw [natToChars_all_digit n c h] at hc
  cases hc

lemma newline_not_mem_natToChars (n : Nat) : '\n' ∉ natToChars n :=
  not_mem_natToChars_of_not_digit '\n' (by decide) n

lemma dropWhile_isWSC_eq_self (l : List Char) (h : ∀ c ∈ l, isWSC c = false) :
    l.dropWhile isWSC = l := by
  cases l with
  | nil => rfl
  | cons a l => simp [List.dropWhile_cons, h a (List.mem_cons_self a l)]

lemma trimChars_of_digits (l : List Char) (h : ∀ c ∈ l, isDigitC c = true) :
    trimChars l = l := by
  have hws : ∀ c ∈ l, isWSC c = false := fun c hc => isWSC_eq_false_of_isDigitC c (h c hc)
  unfold trimChars
  rw [dropWhile_isWSC_eq_self l hws,
      dropWhile_isWSC_eq_self l.reverse (fun c hc => hws c (List.mem_reverse.mp hc)),
      List.reverse_reverse]

lemma goodLine_natToChars (n : Nat) : goodLine (natToChars n) = true := by
  unfold goodLine
  rw [trimChars_of_digits _ (natToChars_all_digit n)]
  have h1 : (natToChars n).isEmpty = false := by
    cases hl : natToChars n with
    | nil => exact absurd hl (natToChars_ne_nil n)
    | cons a l => rfl
  simp only [h1, Bool.not_false, Bool.true_and, List.all_eq_true]
  exact natToChars_all_digit n

lemma splitOnC_ne_nil (sep : Char) (l : List Char) : splitOnC sep l ≠ [] := by
  cases l with
  | nil => simp [splitOnC]
  | cons c cs =>
    simp only [splitOnC]
    split
    · simp
    · split <;> simp

lemma splitOnC_append_cons (sep : Char) (r : List Char) :
    ∀ a : List Char, sep ∉ a → splitOnC sep (a ++ sep :: r) = a :: splitOnC sep r := by
  intro a
  induction a with
  | nil =>
    intro _
    obtain ⟨x, xs, hx⟩ := List.exists_cons_of_ne_nil (splitOnC_ne_nil sep r)
    simp only [List.nil_append, splitOnC, hx]
    simp
  | cons c a ih =>
    intro h
    have hc : (c == sep) = false := by
      simp only [beq_eq_false_iff_ne, ne_eq]
      intro e; exact h (by simp [e])
    have ha : sep ∉ a := fun e => h (List.mem_cons_of_mem _ e)
    simp only [List.cons_append, splitOnC, hc, List.append_eq]
    rw [ih ha]
    simp

lemma ledgerLoadContent_linesOf (ids : List Nat) :
    ledgerLoadContent (linesOf ids) = ids.toFinset := by
  induction ids with
  | nil => decide
  | cons i is ih =>
    show ledgerLoadContent (natToChars i ++ '\n' :: linesOf is) = (i :: is).toFinset
    unfold ledgerLoadContent
    rw [splitOnC_append_cons '\n' (linesOf is) (natToChars i) (newline_not_mem_natToChars i)]
    have hgood := goodLine_natToChars i
    have htrim := trimChars_of_digits _ (natToChars_all_digit i)
    have hparse := parseChars_natToChars i
    simp only [List.filterMap_cons, hgood, if_true, htrim, hparse, List.toFinset_cons]
    unfold ledgerLoadContent at ih
    rw [ih]

@[simp] lemma Handle.write_durable (h : Handle) (s : List Char) : (h.write s).durable = h.durable := rfl

@[simp] lemma Handle.write_buffer (h : Handle) (s : List Char) : (h.write s).buffer = h.buffer ++ s := rfl

@[simp] lemma Handle.write_isOpen (h : Handle) (s : List Char) : (h.write s).isOpen = h.isOpen := rfl

@[simp] lemma Handle.close_durable (h : Handle) : h.close.durable = h.durable ++ h.buffer := rfl

@[simp] lemma Handle.close_buffer (h : Handle) : h.close.buffer = [] := rfl

@[simp] lemma Handle.close_isOpen (h : Handle) : h.close.isOpen = false := rfl

@[simp] lemma settleUpdate_downloadedIds (s : SyncState) (id : Nat) :
    (settleUpdate s id).downloadedIds = insert id s.downloadedIds := rfl

@[simp] lemma settleUpdate_recordFp (s : SyncState) (id : Nat) :
    (settleUpdate s id).recordFp = s.recordFp.write (natToChars id) := rfl

@[simp] lemma settleUpdate_existingFiles (s : SyncState) (id : Nat) :
    (settleUpdate s id).existingFiles = s.existingFiles := rfl

@[simp] lemma settleUpdate_count (s : SyncState) (id : Nat) :
    (settleUpdate s id).count = s.count := rfl

@[simp] lemma settleUpdate_fetchCalls (s : SyncState) (id : Nat) :
    (settleUpdate s id).fetchCalls = s.fetchCalls := rfl

@[simp] lemma settleUpdate_ledgerWrites (s : SyncState) (id : Nat) :
    (settleUpdate s id).ledgerWrites = s.ledgerWrites ++ [id] := rfl

@[simp] lemma downloadUpdate_downloadedIds (s : SyncState) (id : Nat) (b : List Char) :
    (downloadUpdate s id b).downloadedIds = insert id s.downloadedIds := rfl

@[simp] lemma downloadUpdate_recordFp (s : SyncState) (id : Nat) (b : List Char) :
    (downloadUpdate s id b).recordFp = s.recordFp.write (natToChars id) := rfl

@[simp] lemma downloadUpdate_existingFiles (s : SyncState) (id : Nat) (b : List Char) :
    (downloadUpdate s id b).existingFiles = s.existingFiles ++ [b] := rfl

@[simp] lemma downloadUpdate_count (s : SyncState) (id : Nat) (b : List Char) :
    (downloadUpdate s id b).count = s.count + 1 := rfl

@[simp] lemma downloadUpdate_fetchCalls (s : SyncState) (id : Nat) (b : List Char) :
    (downloadUpdate s id b).fetchCalls = s.fetchCalls := rfl

@[simp] lemma downloadUpdate_ledgerWrites (s : SyncState) (id : Nat) (b : List Char) :
    (downloadUpdate s id b).ledgerWrites = s.ledgerWrites ++ [id] := rfl

@[simp] lemma logFetch_downloadedIds (s : SyncState) (id : Nat) :
    (logFetch s id).downloadedIds = s.downloadedIds := rfl

@[simp] lemma logFetch_recordFp (s : SyncState) (id : Nat) :
    (logFetch s id).recordFp = s.recordFp := rfl

@[simp] lemma logFetch_existingFiles (s : SyncState) (id : Nat) :
    (logFetch s id).existingFiles = s.existingFiles := rfl

@[simp] lemma logFetch_count (s : SyncState) (id : Nat) :
    (logFetch s id).count = s.count := rfl

@[simp] lemma logFetch_fetchCalls (s : SyncState) (id : Nat) :
    (logFetch s id).fetchCalls = s.fetchCalls ++ [id] := rfl

@[simp] lemma logFetch_ledgerWrites (s : SyncState) (id : Nat) :
    (logFetch s id).ledgerWrites = s.ledgerWrites := rfl

/-- Exhaustive case analysis of the loop body: every execution of
lines 90-122 takes exactly one of the six paths (skip, probe-settle,
first-attempt download, retry download, caught failure, propagating retry
failure), each with its guards. -/
lemma processMessage_shape (fetch : Nat → Nat → FetchResult) (s : SyncState) (m : Message) :
    processMessage fetch s m = (s, false) ∨
    (m.id ∉ s.downloadedIds ∧ s.existingFiles.any (probeMatch m.id) = true ∧
      processMessage fetch s m = (settleUpdate s m.id, false)) ∨
    (m.id ∉ s.downloadedIds ∧ s.existingFiles.any (probeMatch m.id) = false ∧ m.hasMedia = true ∧
      ((∃ p, fetch m.id 0 = FetchResult.success p ∧
        processMessage fetch s m = (downloadUpdate (logFetch s m.id) m.id (basename p), false)) ∨
       (∃ p, fetch m.id 1 = FetchResult.success p ∧
        processMessage fetch s m =
          (downloadUpdate (logFetch (logFetch s m.id) m.id) m.id (basename p), false)) ∨
       processMessage fetch s m = (logFetch s m.id, false) ∨
       processMessage fetch s m = (logFetch (logFetch s m.id) m.id, true))) := by
  by_cases h1 : m.hasMedia = false
  · left; simp [processMessage, h1]
  · have h1' : m.hasMedia = true := by
      cases hm : m.hasMedia
      · exact absurd hm h1
      · rfl
    by_cases h2 : m.id ∈ s.downloadedIds
    · left; simp [processMessage, h1, h2]
    · by_cases h3 : s.existingFiles.any (probeMatch m.id) = true
      · right; left
        exact ⟨h2, h3, by simp [processMessage, h1, h2, h3]⟩
      · have h3' : s.existingFiles.any (probeMatch m.id) = false := by
          cases ha : s.existingFiles.any (probeMatch m.id)
          · rfl
          · exact absurd ha h3
        right; right
        refine ⟨h2, h3', h1', ?_⟩
        cases hf0 : fetch m.id 0 with
        | success p =>
          left
          exact ⟨p, rfl, by simp [processMessage, h1, h2, h3, hf0]⟩
        | rateLimited w =>
          cases hf1 : fetch m.id 1 with
          | success p =>
            right; left
            exact ⟨p, rfl, by simp [processMessage, h1, h2, h3, hf0, hf1]⟩
          | rateLimited w2 =>
            right; right; right
            simp [processMessage, h1, h2, h3, hf0, hf1]
          | failure =>
            right; right; right
            simp [processMessage, h1, h2, h3, hf0, hf1]
        | failure =>
          right; right; left
          simp [processMessage, h1, h2, h3, hf0]

/-- The in-memory settled-ID set only grows during the message loop. -/
lemma runLoop_downloadedIds_mono (fetch : Nat → Nat → FetchResult) :
    ∀ ms s, s.downloadedIds ⊆ (runLoop fetch s ms).1.downloadedIds := by
  intro ms
  induction ms with
  | nil => intro s; simp [runLoop]
  | cons m ms ih =>
    intro s
    rcases processMessage_shape fetch s m with heq | ⟨h2, h3, heq⟩ |
      ⟨h2, h3, h1, ⟨p, hf, heq⟩ | ⟨p, hf, heq⟩ | heq | heq⟩
    · simp only [runLoop, heq]; exact ih s
    · simp only [runLoop, heq]
      refine Finset.Subset.trans ?_ (ih (settleUpdate s m.id))
      simp only [settleUpdate_downloadedIds]
      exact Finset.subset_insert _ _
    · simp only [runLoop, heq]
      refine Finset.Subset.trans ?_ (ih _)
      simp only [downloadUpdate_downloadedIds, logFetch_downloadedIds]
      exact Finset.subset_insert _ _
    · simp only [runLoop, heq]
      refine Finset.Subset.trans ?_ (ih _)
      simp only [downloadUpdate_downloadedIds, logFetch_downloadedIds]
      exact Finset.subset_insert _ _
    · simp only [runLoop, heq]
      refine Finset.Subset.trans ?_ (ih _)
      simp only [logFetch_downloadedIds]
      exact Finset.Subset.refl _
    · simp only [runLoop, heq, logFetch_downloadedIds]
      exact Finset.Subset.refl _

/-- The in-memory directory snapshot only grows during the message loop. -/
lemma runLoop_files_mono (fetch : Nat → Nat → FetchResult) :
    ∀ ms s g, g ∈ s.existingFiles → g ∈ (runLoop fetch s ms).1.existingFiles := by
  intro ms
  induction ms with
  | nil => intro s g hg; simpa [runLoop] using hg
  | cons m ms ih =>
    intro s g hg
    rcases processMessage_shape fetch s m with heq | ⟨h2, h3, heq⟩ |
      ⟨h2, h3, h1, ⟨p, hf, heq⟩ | ⟨p, hf, heq⟩ | heq | heq⟩
    · simp only [runLoop, heq]; exact ih s g hg
    · simp only [runLoop, heq]
      exact ih _ g (by simpa using hg)
    · simp only [runLoop, heq]
      refine ih _ g ?_
      simp only [downloadUpdate_existingFiles, logFetch_existingFiles, List.mem_append]
      exact Or.inl hg
    · simp only [runLoop, heq]
      refine ih _ g ?_
      simp only [downloadUpdate_existingFiles, logFetch_existingFiles, List.mem_append]
      exact Or.inl hg
    · simp only [runLoop, heq]
      exact ih _ g (by simpa using hg)
    · simp only [runLoop, heq]
      simpa using hg

/-- Per-run bound on fetcher invocations: each processed message contributes
at most two entries (first attempt plus one rate-limit retry). -/
lemma runLoop_fetchCalls_count (fetch : Nat → Nat → FetchResult) (i : Nat) :
    ∀ ms s, ((runLoop fetch s ms).1.fetchCalls).count i ≤
      s.fetchCalls.count i + 2 * ((ms.map Message.id).count i) := by
  intro ms
  induction ms with
  | nil => intro s; simp [runLoop]
  | cons m ms ih =>
    intro s
    have hms : ((m :: ms).map Message.id).count i =
        (ms.map Message.id).count i + (if m.id = i then 1 else 0) := by
      simp [List.count_cons]
    rcases processMessage_shape fetch s m with heq | ⟨h2, h3, heq⟩ |
      ⟨h2, h3, h1, ⟨p, hf, heq⟩ | ⟨p, hf, heq⟩ | heq | heq⟩
    · rw [runLoop, heq, hms]
      have := ih s
      by_cases hi : m.id = i <;> simp only [hi, if_true, if_false] at this ⊢ <;> omega
    · rw [runLoop, heq, hms]
      have := ih (settleUpdate s m.id)
      rw [settleUpdate_fetchCalls] at this
      by_cases hi : m.id = i <;> simp only [hi, if_true, if_false] at this ⊢ <;> omega
    · rw [runLoop, heq, hms]
      have := ih (downloadUpdate (logFetch s m.id) m.id (basename p))
      rw [downloadUpdate_fetchCalls, logFetch_fetchCalls, List.count_append] at this
      have h1c : (List.count i [m.id]) = if m.id = i then 1 else 0 := by
        by_cases hi : m.id = i <;> simp [List.count_cons, hi] <;> omega
      rw [h1c] at this
      by_cases hi : m.id = i <;> simp only [hi, if_true, if_false] at this ⊢ <;> omega
    · rw [runLoop, heq, hms]
      have := ih (downloadUpdate (logFetch (logFetch s m.id) m.id) m.id (basename p))
      rw [downloadUpdate_fetchCalls, logFetch_fetchCalls, logFetch_fetchCalls,
        List.append_assoc, List.count_append] at this
      have h2c : (List.count i ([m.id] ++ [m.id])) = if m.id = i then 2 else 0 := by
        by_cases hi : m.id = i <;> simp [List.count_cons, hi] <;> omega
      rw [h2c] at this
      by_cases hi : m.id = i <;> simp only [hi, if_true, if_false] at this ⊢ <;> omega
    · rw [runLoop, heq, hms]
      have := ih (logFetch s m.id)
      rw [logFetch_fetchCalls, List.count_append] at this
      have h1c : (List.count i [m.id]) = if m.id = i then 1 else 0 := by
        by_cases hi : m.id = i <;> simp [List.count_cons, hi] <;> omega
      rw [h1c] at this
      by_cases hi : m.id = i <;> simp only [hi, if_true, if_false] at this ⊢ <;> omega
    · rw [runLoop, heq, hms]
      simp only [logFetch_fetchCalls, List.append_assoc, List.count_append]
      by_cases hi : m.id = i <;> simp [List.count_cons, hi] <;> omega

lemma probe_guard_ne (i j : Nat) (files : List (List Char))
    (hart : ∃ g ∈ files, probeMatch i g = true)
    (h3 : files.any (probeMatch j) = false) : j ≠ i := by
  intro hj
  obtain ⟨g, hg, hpm⟩ := hart
  rw [hj] at h3
  rw [List.any_eq_true.mpr ⟨g, hg, hpm⟩] at h3
  cases h3

lemma not_mem_append_single (i j : Nat) (l : List Nat) (hne : j ≠ i) (h : i ∉ l) :
    i ∉ l ++ [j] := by
  simp only [List.mem_append, List.mem_singleton]
  rintro (hh | hh)
  · exact h hh
  · exact hne hh.symm

/-- If the snapshot already holds an artifact matching `i` and the fetcher
has not been invoked for `i`, the loop never invokes the fetcher for `i`:
either the ledger check or the probe check settles it first. -/
lemma runLoop_no_fetch_of_artifact (fetch : Nat → Nat → FetchResult) (i : Nat) :
    ∀ ms s, (∃ g ∈ s.existingFiles, probeMatch i g = true) → i ∉ s.fetchCalls →
      i ∉ (runLoop fetch s ms).1.fetchCalls := by
  intro ms
  induction ms with
  | nil => intro s _ hnc; simpa [runLoop] using hnc
  | cons m ms ih =>
    intro s hart hnc
    rcases processMessage_shape fetch s m with heq | ⟨h2, h3, heq⟩ |
      ⟨h2, h3, h1, ⟨p, hf, heq⟩ | ⟨p, hf, heq⟩ | heq | heq⟩
    · rw [runLoop, heq]
      exact ih s hart hnc
    · rw [runLoop, heq]
      refine ih _ ?_ ?_
      · simpa using hart
      · simpa using hnc
    · rw [runLoop, heq]
      have hne := probe_guard_ne i m.id s.existingFiles hart h3
      refine ih _ ?_ ?_
      · obtain ⟨g, hg, hpm⟩ := hart
        refine ⟨g, ?_, hpm⟩
        simp only [downloadUpdate_existingFiles, logFetch_existingFiles, List.mem_append]
        exact Or.inl hg
      · simpa using not_mem_append_single i m.id s.fetchCalls hne hnc
    · rw [runLoop, heq]
      have hne := probe_guard_ne i m.id s.existingFiles hart h3
      refine ih _ ?_ ?_
      · obtain ⟨g, hg, hpm⟩ := hart
        refine ⟨g, ?_, hpm⟩
        simp only [downloadUpdate_existingFiles, logFetch_existingFiles, List.mem_append]
        exact Or.inl hg
      · simpa using not_mem_append_single i m.id _ hne
          (not_mem_append_single i m.id s.fetchCalls hne hnc)
    · rw [runLoop, heq]
      have hne := probe_guard_ne i m.id s.existingFiles hart h3
      refine ih _ ?_ ?_
      · simpa using hart
      · simpa using not_mem_append_single i m.id s.fetchCalls hne hnc
    · rw [runLoop, heq]
      have hne := probe_guard_ne i m.id s.existingFiles hart h3
      simpa using not_mem_append_single i m.id _ hne
        (not_mem_append_single i m.id s.fetchCalls hne hnc)

/-- If the fetcher names every artifact it saves with the owning message ID
(`probeMatch` holds of its basename), then "settled implies an artifact is
in the snapshot" is preserved by the loop. -/
lemma runLoop_settled_artifact (fetch : Nat → Nat → FetchResult)
    (hname : ∀ i k p, fetch i k = FetchResult.success p → probeMatch i (basename p) = true) :
    ∀ ms s, (∀ j ∈ s.downloadedIds, ∃ g ∈ s.existingFiles, probeMatch j g = true) →
      ∀ j ∈ (runLoop fetch s ms).1.downloadedIds,
        ∃ g ∈ (runLoop fetch s ms).1.existingFiles, probeMatch j g = true := by
  intro ms
  induction ms with
  | nil => intro s hs; simpa [runLoop] using hs
  | cons m ms ih =>
    intro s hs
    rcases processMessage_shape fetch s m with heq | ⟨h2, h3, heq⟩ |
      ⟨h2, h3, h1, ⟨p, hf, heq⟩ | ⟨p, hf, heq⟩ | heq | heq⟩
    · rw [runLoop, heq]
      exact ih s hs
    · rw [runLoop, heq]
      refine ih _ ?_
      intro j hj
      simp only [settleUpdate_downloadedIds, Finset.mem_insert] at hj
      simp only [settleUpdate_existingFiles]
      rcases hj with hj | hj
      · subst hj
        obtain ⟨g, hg, hpm⟩ := List.any_eq_true.mp h3
        exact ⟨g, hg, hpm⟩
      · exact hs j hj
    · rw [runLoop, heq]
      refine ih _ ?_
      intro j hj
      simp only [downloadUpdate_downloadedIds, logFetch_downloadedIds, Finset.mem_insert] at hj
      simp only [downloadUpdate_existingFiles, logFetch_existingFiles]
      rcases hj with hj | hj
      · subst hj
        exact ⟨basename p, by simp, hname m.id 0 p hf⟩
      · obtain ⟨g, hg, hpm⟩ := hs j hj
        exact ⟨g, by simp [hg], hpm⟩
    · rw [runLoop, heq]
      refine ih _ ?_
      intro j hj
      simp only [downloadUpdate_downloadedIds, logFetch_downloadedIds, Finset.mem_insert] at hj
      simp only [downloadUpdate_existingFiles, logFetch_existingFiles]
      rcases hj with hj | hj
      · subst hj
        exact ⟨basename p, by simp, hname m.id 1 p hf⟩
      · obtain ⟨g, hg, hpm⟩ := hs j hj
        exact ⟨g, by simp [hg], hpm⟩
    · rw [runLoop, heq]
      refine ih _ ?_
      intro j hj
      simp only [logFetch_downloadedIds] at hj
      simp only [logFetch_existingFiles]
      exact hs j hj
    · rw [runLoop, heq]
      intro j hj
      simp only [logFetch_downloadedIds] at hj
      simp only [logFetch_existingFiles]
      exact hs j hj

/-- Every ledger write is guarded by the membership check, so within one run
the write log stays duplicate-free and below the in-memory set. -/
lemma runLoop_writes_nodup (fetch : Nat → Nat → FetchResult) :
    ∀ ms s, (∀ j ∈ s.ledgerWrites, j ∈ s.downloadedIds) → s.ledgerWrites.Nodup →
      ((runLoop fetch s ms).1.ledgerWrites.Nodup ∧
        ∀ j ∈ (runLoop fetch s ms).1.ledgerWrites, j ∈ (runLoop fetch s ms).1.downloadedIds) := by
  intro ms
  induction ms with
  | nil => intro s hsub hnd; exact ⟨by simpa [runLoop] using hnd, by simpa [runLoop] using hsub⟩
  | cons m ms ih =>
    intro s hsub hnd
    have hsettle : ∀ s' : SyncState, s' = settleUpdate s m.id ∨
        (∃ b, s' = downloadUpdate (logFetch s m.id) m.id b) ∨
        (∃ b, s' = downloadUpdate (logFetch (logFetch s m.id) m.id) m.id b) →
        m.id ∉ s.downloadedIds →
        ((∀ j ∈ s'.ledgerWrites, j ∈ s'.downloadedIds) ∧ s'.ledgerWrites.Nodup) := by
      intro s' hcase h2
      have hmw : m.id ∉ s.ledgerWrites := fun hmem => h2 (hsub m.id hmem)
      have hkey : s'.ledgerWrites = s.ledgerWrites ++ [m.id] ∧
          s'.downloadedIds = insert m.id s.downloadedIds := by
        rcases hcase with h | ⟨b, h⟩ | ⟨b, h⟩ <;> subst h <;> simp
      refine ⟨?_, ?_⟩
      · intro j hj
        rw [hkey.1] at hj
        rw [hkey.2]
        rcases List.mem_append.mp hj with hj | hj
        · exact Finset.mem_insert_of_mem (hsub j hj)
        · rw [List.mem_singleton.mp hj]
          exact Finset.mem_insert_self _ _
      · rw [hkey.1, ← List.concat_eq_append]
        exact List.Nodup.concat hmw hnd
    rcases processMessage_shape fetch s m with heq | ⟨h2, h3, heq⟩ |
      ⟨h2, h3, h1, ⟨p, hf, heq⟩ | ⟨p, hf, heq⟩ | heq | heq⟩
    · rw [runLoop, heq]
      exact ih s hsub hnd
    · rw [runLoop, heq]
      obtain ⟨ha, hb⟩ := hsettle (settleUpdate s m.id) (Or.inl rfl) h2
      exact ih _ ha hb
    · rw [runLoop, heq]
      obtain ⟨ha, hb⟩ := hsettle _ (Or.inr (Or.inl ⟨basename p, rfl⟩)) h2
      exact ih _ ha hb
    · rw [runLoop, heq]
      obtain ⟨ha, hb⟩ := hsettle _ (Or.inr (Or.inr ⟨basename p, rfl⟩)) h2
      exact ih _ ha hb
    · rw [runLoop, heq]
      refine ih _ ?_ ?_
      · simpa using hsub
      · simpa using hnd
    · rw [runLoop, heq]
      exact ⟨by simpa using hnd, by simpa using hsub⟩

/-- The loop never touches the durable part of the handle, never closes it,
and keeps the buffer in lockstep with the write log. -/
lemma runLoop_handle (fetch : Nat → Nat → FetchResult) :
    ∀ ms s, (runLoop fetch s ms).1.recordFp.durable = s.recordFp.durable ∧
      (runLoop fetch s ms).1.recordFp.isOpen = s.recordFp.isOpen := by
  intro ms
  induction ms with
  | nil => intro s; simp [runLoop]
  | cons m ms ih =>
    intro s
    rcases processMessage_shape fetch s m with heq | ⟨h2, h3, heq⟩ |
      ⟨h2, h3, h1, ⟨p, hf, heq⟩ | ⟨p, hf, heq⟩ | heq | heq⟩ <;>
      rw [runLoop, heq] <;>
      first
      | exact ih s
      | { obtain ⟨ha, hb⟩ := ih (settleUpdate s m.id); simp [ha, hb] }
      | { obtain ⟨ha, hb⟩ := ih (downloadUpdate (logFetch s m.id) m.id (basename p))
          simp at ha hb
          simp [ha, hb] }
      | { obtain ⟨ha, hb⟩ :=
            ih (downloadUpdate (logFetch (logFetch s m.id) m.id) m.id (basename p))
          simp at ha hb
          simp [ha, hb] }
      | { obtain ⟨ha, hb⟩ := ih (logFetch s m.id); simp at ha hb; simp [ha, hb] }
      | simp

/-- The handle's buffer is exactly the concatenated decimal renderings of
the write log. -/
lemma runLoop_buffer (fetch : Nat → Nat → FetchResult) :
    ∀ ms s, s.recordFp.buffer = writesChars s.ledgerWrites →
      (runLoop fetch s ms).1.recordFp.buffer =
        writesChars (runLoop fetch s ms).1.ledgerWrites := by
  intro ms
  induction ms with
  | nil => intro s h; simpa [runLoop] using h
  | cons m ms ih =>
    intro s h
    have hstep : ∀ id, (s.recordFp.write (natToChars id)).buffer =
        writesChars (s.ledgerWrites ++ [id]) := by
      intro id
      rw [writesChars_append, Handle.write_buffer, h]
      simp [writesChars]
    rcases processMessage_shape fetch s m with heq | ⟨h2, h3, heq⟩ |
      ⟨h2, h3, h1, ⟨p, hf, heq⟩ | ⟨p, hf, heq⟩ | heq | heq⟩ <;>
      rw [runLoop, heq] <;>
      first
      | exact ih s h
      | { refine ih _ ?_; simpa using hstep m.id }
      | exact ih _ (by simpa using h)
      | simpa using h

/-- Unfold `download_media` against a known loop outcome. -/
lemma download_media_eq_of_run (fetch : Nat → Nat → FetchResult) (lf : Option (List Char))
    (dl : List (List Char)) (msgs : List Message) (s : SyncState) (b : Bool)
    (hr : runLoop fetch (initState lf dl) msgs = (s, b)) :
    download_media fetch lf dl msgs =
      if b then (s, true) else ({ s with recordFp := s.recordFp.close }, false) := by
  unfold download_media
  rw [hr]
  cases b <;> rfl

/-- Except for the handle, the final state of `download_media` is the final
state of the loop (closing the handle touches no other field). -/
lemma download_media_state_fields (fetch : Nat → Nat → FetchResult) (lf : Option (List Char))
    (dl : List (List Char)) (msgs : List Message) :
    (download_media fetch lf dl msgs).1.downloadedIds =
      (runLoop fetch (initState lf dl) msgs).1.downloadedIds ∧
    (download_media fetch lf dl msgs).1.existingFiles =
      (runLoop fetch (initState lf dl) msgs).1.existingFiles ∧
    (download_media fetch lf dl msgs).1.fetchCalls =
      (runLoop fetch (initState lf dl) msgs).1.fetchCalls ∧
    (download_media fetch lf dl msgs).1.ledgerWrites =
      (runLoop fetch (initState lf dl) msgs).1.ledgerWrites ∧
    (download_media fetch lf dl msgs).1.count =
      (runLoop fetch (initState lf dl) msgs).1.count := by
  rcases hr : runLoop fetch (initState lf dl) msgs with ⟨s, b⟩
  rw [download_media_eq_of_run fetch lf dl msgs s b hr]
  cases b <;> simp

/-- Fetcher that always succeeds, saving the artifact as `"<id>.jpg"`
(the ID-prefixed naming the spec's persisted-state layout prescribes). -/
def fetchJpg : Nat → Nat → FetchResult :=
  fun i _ => FetchResult.success (natToChars i ++ ['.', 'j', 'p', 'g'])

/-- Fetcher that rate-limits message 7 on the first attempt and fails its
retry; all other messages succeed. -/
def fetchRetryFails : Nat → Nat → FetchResult :=
  fun i k =>
    if i = 7 then (if k = 0 then FetchResult.rateLimited 2 else FetchResult.failure)
    else FetchResult.success (natToChars i ++ ['.', 'j', 'p', 'g'])

/-- Fetcher that always raises a non-rate-limit error. -/
def fetchAlwaysFails : Nat → Nat → FetchResult := fun _ _ => FetchResult.failure

/-- Fetcher that rate-limits every first attempt and succeeds on the retry
with the ID-prefixed artifact name. -/
def fetchRLthenOK : Nat → Nat → FetchResult :=
  fun i k => if k = 0 then FetchResult.rateLimited 2
             else FetchResult.success (natToChars i ++ ['.', 'j', 'p', 'g'])

/-- The spec's scenario channel: media messages 3 and 2, newest first. -/
def msgs32 : List Message := [⟨3, true⟩, ⟨2, true⟩]

/-- **C1** (evidence): settling message 2 appends exactly `"2"` to the
ledger — no terminating line break anywhere in the resulting file content,
contradicting the one-ID-per-line format the spec prescribes and the loader
parses. -/
theorem C1_ledger_write_has_no_line_break :
    (download_media fetchJpg none [] [⟨2, true⟩]).1.recordFp.durable = ['2'] ∧
    '\n' ∉ (download_media fetchJpg none [] [⟨2, true⟩]).1.recordFp.durable := by
  decide

/-- **C2** (evidence): identical back-to-back runs over media messages
`[3, 2]` from an empty directory.  Run 1 downloads 2 and leaves ledger
content `"32"` (which loads as `{32}`, not `{2, 3}`).  Run 2 downloads 0 —
but appends both IDs again, so the file becomes `"3232"` and the loadable
settled-ID set changes from `{32}` to `{3232}`: it is NOT unchanged. -/
theorem C2_second_run_changes_ledger_set :
    (download_media fetchJpg none [] msgs32).1.count = 2 ∧
    (download_media fetchJpg none [] msgs32).1.recordFp.durable = ['3', '2'] ∧
    ledgerLoad (some (download_media fetchJpg none [] msgs32).1.recordFp.durable) = {32} ∧
    (download_media fetchJpg (some (download_media fetchJpg none [] msgs32).1.recordFp.durable)
        (download_media fetchJpg none [] msgs32).1.existingFiles msgs32).1.count = 0 ∧
    (download_media fetchJpg (some (download_media fetchJpg none [] msgs32).1.recordFp.durable)
        (download_media fetchJpg none [] msgs32).1.existingFiles msgs32).1.recordFp.durable
      = ['3', '2', '3', '2'] ∧
    ledgerLoad (some ['3', '2', '3', '2']) = {3232} ∧
    ledgerLoad (some ['3', '2', '3', '2']) ≠ ledgerLoad (some ['3', '2']) := by
  decide

/-- **C3** (evidence): message 7 rate-limits and its retry fails.  The
retry runs inside the `except FloodWaitError` block, so its exception is
not caught by the sibling `except Exception`: the run aborts, the pending
message 8 is never processed (the fetch log is `[7, 7]`), nothing is
settled, and no failure-and-continue happens. -/
theorem C3_retry_failure_aborts_run :
    (download_media fetchRetryFails none [] [⟨7, true⟩, ⟨8, true⟩]).2 = true ∧
    (download_media fetchRetryFails none [] [⟨7, true⟩, ⟨8, true⟩]).1.fetchCalls = [7, 7] ∧
    (download_media fetchRetryFails none [] [⟨7, true⟩, ⟨8, true⟩]).1.count = 0 ∧
    (download_media fetchRetryFails none [] [⟨7, true⟩, ⟨8, true⟩]).1.downloadedIds = ∅ := by
  decide

/-- **C4** (evidence): on the abort path (failing rate-limit retry) the run
ends with the ledger handle still open — `record_fp.close()` on line 123
has no `try/finally` protecting it — while a normal run does close it. -/
theorem C4_handle_not_closed_on_abort :
    (download_media fetchRetryFails none [] [⟨7, true⟩]).2 = true ∧
    (download_media fetchRetryFails none [] [⟨7, true⟩]).1.recordFp.isOpen = true ∧
    (download_media fetchJpg none [] [⟨3, true⟩]).1.recordFp.isOpen = false := by
  decide

/-- **C5** (counterexample): settling message 3 from a fresh state leaves
the write in the handle's userspace buffer only — the durable ledger
content is still empty when the engine proceeds to the next message, so the
write was NOT durably recorded per message. -/
theorem C5_counterexample_write_not_durable :
    (processMessage fetchJpg (initState none []) ⟨3, true⟩).1.ledgerWrites = [3] ∧
    (processMessage fetchJpg (initState none []) ⟨3, true⟩).1.recordFp.durable = [] ∧
    (processMessage fetchJpg (initState none []) ⟨3, true⟩).1.recordFp.buffer = ['3'] := by
  decide

/-- **C5** (amended): each ledger write goes to the handle's buffer before
the engine proceeds (no message step ever changes the durable content), and
the buffered entries reach durable storage only when the handle is closed
at normal completion — the final durable content is the pre-existing file
content followed by the decimal renderings of all the run's writes. -/
theorem C5_writes_buffered_until_close (fetch : Nat → Nat → FetchResult)
    (lf : Option (List Char)) (dl : List (List Char)) (msgs : List Message)
    (hdone : (download_media fetch lf dl msgs).2 = false) :
    (∀ s m, (processMessage fetch s m).1.recordFp.durable = s.recordFp.durable) ∧
    (download_media fetch lf dl msgs).1.recordFp.durable =
      lf.getD [] ++ writesChars (download_media fetch lf dl msgs).1.ledgerWrites ∧
    (download_media fetch lf dl msgs).1.recordFp.isOpen = false := by
  have hstep : ∀ s m, (processMessage fetch s m).1.recordFp.durable = s.recordFp.durable := by
    intro s m
    rcases processMessage_shape fetch s m with heq | ⟨h2, h3, heq⟩ |
      ⟨h2, h3, h1, ⟨p, hf, heq⟩ | ⟨p, hf, heq⟩ | heq | heq⟩ <;> rw [heq] <;> simp
  refine ⟨hstep, ?_⟩
  rcases hr : runLoop fetch (initState lf dl) msgs with ⟨s, b⟩
  have hdm := download_media_eq_of_run fetch lf dl msgs s b hr
  cases b with
  | true => rw [hdm] at hdone; cases hdone
  | false =>
    have hdm2 : download_media fetch lf dl msgs =
        ({ s with recordFp := s.recordFp.close }, false) := by
      unfold download_media
      rw [hr]
    rw [hdm2]
    have hdur := runLoop_handle fetch msgs (initState lf dl)
    rw [hr] at hdur
    have hbuf := runLoop_buffer fetch msgs (initState lf dl) (by simp [initState, writesChars])
    rw [hr] at hbuf
    refine ⟨?_, rfl⟩
    show (s.recordFp.close).durable = lf.getD [] ++ writesChars s.ledgerWrites
    rw [Handle.close_durable, hdur.1, hbuf]
    simp [initState]

/-- Closed instance of `C5_writes_buffered_until_close`. -/
theorem C5_writes_buffered_until_close_witness :
    (∀ s m, (processMessage fetchJpg s m).1.recordFp.durable = s.recordFp.durable) ∧
    (download_media fetchJpg none [] [⟨3, true⟩]).1.recordFp.durable =
      (none : Option (List Char)).getD [] ++
        writesChars (download_media fetchJpg none [] [⟨3, true⟩]).1.ledgerWrites ∧
    (download_media fetchJpg none [] [⟨3, true⟩]).1.recordFp.isOpen = false :=
  C5_writes_buffered_until_close fetchJpg none [] [⟨3, true⟩] (by decide)

/-- **C6**: a media message whose ID is not in the loaded set but which has
a matching file in the snapshot (name equal to the ID or starting with
`"<id>."`) is settled via the probe: no fetcher invocation, the ID joins
the in-memory set and is written to the ledger handle, and the
downloaded-count is unchanged. -/
theorem C6_probe_settles_without_fetcher (fetch : Nat → Nat → FetchResult)
    (s : SyncState) (m : Message) (hm : m.hasMedia = true)
    (hld : m.id ∉ s.downloadedIds)
    (hfile : s.existingFiles.any (probeMatch m.id) = true) :
    processMessage fetch s m = (settleUpdate s m.id, false) ∧
    (processMessage fetch s m).1.downloadedIds = insert m.id s.downloadedIds ∧
    (processMessage fetch s m).1.recordFp = s.recordFp.write (natToChars m.id) ∧
    (processMessage fetch s m).1.ledgerWrites = s.ledgerWrites ++ [m.id] ∧
    (processMessage fetch s m).1.count = s.count ∧
    (processMessage fetch s m).1.fetchCalls = s.fetchCalls := by
  have h : processMessage fetch s m = (settleUpdate s m.id, false) := by
    unfold processMessage
    simp [hm, hld, hfile]
  refine ⟨h, ?_, ?_, ?_, ?_, ?_⟩ <;> rw [h] <;> simp

/-- Closed instance of `C6_probe_settles_without_fetcher`. -/
theorem C6_probe_settles_without_fetcher_witness :
    processMessage fetchAlwaysFails (initState none [['9', '.', 'j', 'p', 'g']]) ⟨9, true⟩
      = (settleUpdate (initState none [['9', '.', 'j', 'p', 'g']]) 9, false) :=
  (C6_probe_settles_without_fetcher fetchAlwaysFails
    (initState none [['9', '.', 'j', 'p', 'g']]) ⟨9, true⟩
    (by decide) (by decide) (by decide)).1

@[simp] lemma initState_downloadedIds (lf : Option (List Char)) (dl : List (List Char)) :
    (initState lf dl).downloadedIds = ledgerLoad lf := rfl

@[simp] lemma initState_existingFiles (lf : Option (List Char)) (dl : List (List Char)) :
    (initState lf dl).existingFiles = dl := rfl

@[simp] lemma initState_fetchCalls (lf : Option (List Char)) (dl : List (List Char)) :
    (initState lf dl).fetchCalls = [] := rfl

@[simp] lemma initState_ledgerWrites (lf : Option (List Char)) (dl : List (List Char)) :
    (initState lf dl).ledgerWrites = [] := rfl

/-- **C7**: (a) within a single run the fetcher is invoked at most twice per
message ID (initial attempt plus at most one rate-limit retry); (b) once a
message is settled in a run, any later run whose directory listing is the
first run's final snapshot never invokes the fetcher for it — under the
spec's collaborator contracts that artifact names are ID-prefixed and that
every ID already in the loaded ledger has its artifact on disk. -/
theorem C7_fetcher_at_most_twice_and_zero_after_settled
    (fetch fetch2 : Nat → Nat → FetchResult) (lf lf2 : Option (List Char))
    (dl : List (List Char)) (msgs msgs2 : List Message) (id : Nat)
    (hname : ∀ i k p, fetch i k = FetchResult.success p → probeMatch i (basename p) = true)
    (hinv : ∀ j ∈ ledgerLoad lf, ∃ g ∈ dl, probeMatch j g = true)
    (hnd : (msgs.map Message.id).Nodup)
    (hsettled : id ∈ (download_media fetch lf dl msgs).1.downloadedIds) :
    (∀ i, ((download_media fetch lf dl msgs).1.fetchCalls).count i ≤ 2) ∧
    id ∉ (download_media fetch2 lf2
        ((download_media fetch lf dl msgs).1.existingFiles) msgs2).1.fetchCalls := by
  obtain ⟨hids, hfiles, hcalls, hwrites, hcount⟩ := download_media_state_fields fetch lf dl msgs
  constructor
  · intro i
    rw [hcalls]
    have hb := runLoop_fetchCalls_count fetch i msgs (initState lf dl)
    have hcnt1 : (msgs.map Message.id).count i ≤ 1 := List.nodup_iff_count_le_one.mp hnd i
    rw [initState_fetchCalls, List.count_nil] at hb
    omega
  · have hart : ∀ j ∈ (runLoop fetch (initState lf dl) msgs).1.downloadedIds,
        ∃ g ∈ (runLoop fetch (initState lf dl) msgs).1.existingFiles, probeMatch j g = true := by
      apply runLoop_settled_artifact fetch hname msgs (initState lf dl)
      intro j hj
      rw [initState_downloadedIds] at hj
      rw [initState_existingFiles]
      exact hinv j hj
    rw [hids] at hsettled
    obtain ⟨g, hg, hpm⟩ := hart id hsettled
    obtain ⟨_, _, hcalls2, _, _⟩ := download_media_state_fields fetch2 lf2
      ((download_media fetch lf dl msgs).1.existingFiles) msgs2
    rw [hcalls2]
    apply runLoop_no_fetch_of_artifact fetch2 id msgs2
    · refine ⟨g, ?_, hpm⟩
      rw [initState_existingFiles, hfiles]
      exact hg
    · rw [initState_fetchCalls]
      exact List.not_mem_nil id

/-- Closed instance of `C7_fetcher_at_most_twice_and_zero_after_settled`. -/
theorem C7_fetcher_at_most_twice_and_zero_after_settled_witness :
    (∀ i, ((download_media fetchAlwaysFails none [['3', '.', 'j', 'p', 'g']]
        [⟨3, true⟩]).1.fetchCalls).count i ≤ 2) ∧
    3 ∉ (download_media fetchAlwaysFails none
        ((download_media fetchAlwaysFails none [['3', '.', 'j', 'p', 'g']]
          [⟨3, true⟩]).1.existingFiles) [⟨3, true⟩]).1.fetchCalls :=
  C7_fetcher_at_most_twice_and_zero_after_settled fetchAlwaysFails fetchAlwaysFails
    none none [['3', '.', 'j', 'p', 'g']] [⟨3, true⟩] [⟨3, true⟩] 3
    (fun i k p h => FetchResult.noConfusion h) (by decide) (by decide) (by decide)

/-- Python `str.isdigit` on the characters this model distinguishes: the
ASCII decimal digits together with the superscript digits U+00B9, U+00B2,
U+00B3 (`¹ ² ³`) — representatives of the further Unicode
Numeric_Type=Digit characters that `isdigit` accepts but `int()` rejects
with `ValueError`. -/
def pyIsDigit (c : Char) : Bool :=
  isDigitC c || c.toNat == 178 || c.toNat == 179 || c.toNat == 185

/-- The guard `line.strip().isdigit()` of line 81 with Python's actual
`isdigit` semantics (`pyIsDigit`), wider than `goodLine`'s ASCII test. -/
def pyGoodLine (l : List Char) : Bool :=
  !(trimChars l).isEmpty && (trimChars l).all pyIsDigit

/-- Whether `int(s)` succeeds on an `isdigit`-passing string `s`: exactly
when `s` is nonempty and consists of ASCII decimal digits (a sign or inner
whitespace cannot occur in an `isdigit`-passing string); on the other
`isdigit`-passing strings — e.g. `"²"` — `int` raises `ValueError`. -/
def intParseOK (l : List Char) : Bool := !l.isEmpty && l.all isDigitC

/-- Line 81 with the failure path kept: the set comprehension evaluates
`int(line.strip())` for every guard-passing line and raises `ValueError`
(`none` here) if any such line is not an ASCII decimal numeral. -/
def ledgerLoadLinesPy : List (List Char) → Option (Finset Nat)
  | [] => some ∅
  | l :: ls =>
    if pyGoodLine l = true then
      if intParseOK (trimChars l) = true then
        match ledgerLoadLinesPy ls with
        | some s => some (insert (parseChars (trimChars l)) s)
        | none => none
      else none
    else ledgerLoadLinesPy ls

/-- Lines 78-81 with the failure path kept: a missing file yields the empty
set; otherwise the file's lines are parsed, and a guard-passing but
unparseable line fails the load — and with it the run, since nothing in
`download_media` catches the `ValueError`. -/
def ledgerLoadPy : Option (List Char) → Option (Finset Nat)
  | none => some ∅
  | some c => ledgerLoadLinesPy (splitOnC '\n' c)

lemma pyIsDigit_eq_isDigitC_of_ascii (c : Char) (h : c.toNat < 128) :
    pyIsDigit c = isDigitC c := by
  unfold pyIsDigit
  have h178 : (c.toNat == 178) = false := by simp only [beq_eq_false_iff_ne, ne_eq]; omega
  have h179 : (c.toNat == 179) = false := by simp only [beq_eq_false_iff_ne, ne_eq]; omega
  have h185 : (c.toNat == 185) = false := by simp only [beq_eq_false_iff_ne, ne_eq]; omega
  rw [h178, h179, h185]
  simp

lemma all_congr_on {l : List Char} {p q : Char → Bool} (h : ∀ x ∈ l, p x = q x) :
    l.all p = l.all q := by
  induction l with
  | nil => rfl
  | cons a as ih =>
    simp only [List.all_cons]
    rw [h a (List.mem_cons_self a as), ih (fun x hx => h x (List.mem_cons_of_mem a hx))]

lemma mem_of_mem_trimChars (c : Char) (l : List Char) (h : c ∈ trimChars l) : c ∈ l := by
  unfold trimChars at h
  rw [List.mem_reverse] at h
  have h2 := (List.dropWhile_sublist isWSC).subset h
  rw [List.mem_reverse] at h2
  exact (List.dropWhile_sublist isWSC).subset h2

lemma mem_of_mem_splitOnC (sep : Char) :
    ∀ (c : List Char) (l : List Char), l ∈ splitOnC sep c → ∀ x ∈ l, x ∈ c := by
  intro c
  induction c with
  | nil =>
    intro l hl x hx
    simp only [splitOnC, List.mem_singleton] at hl
    subst hl
    cases hx
  | cons a cs ih =>
    intro l hl x hx
    obtain ⟨hd, tl, hr⟩ := List.exists_cons_of_ne_nil (splitOnC_ne_nil sep cs)
    by_cases ha : (a == sep) = true
    · simp only [splitOnC, hr, ha, if_true] at hl
      rcases List.mem_cons.mp hl with h1 | h1
      · subst h1; cases hx
      · have hmem : l ∈ splitOnC sep cs := by rw [hr]; exact h1
        exact List.mem_cons_of_mem a (ih l hmem x hx)
    · have ha' : (a == sep) = false := by
        cases hq : (a == sep)
        · rfl
        · exact absurd hq ha
      simp only [splitOnC, hr, ha', if_false] at hl
      rcases List.mem_cons.mp hl with h1 | h1
      · subst h1
        rcases List.mem_cons.mp hx with h2 | h2
        · rw [h2]; exact List.mem_cons_self a cs
        · have hmem : hd ∈ splitOnC sep cs := by rw [hr]; exact List.mem_cons_self hd tl
          exact List.mem_cons_of_mem a (ih hd hmem x h2)
      · have hmem : l ∈ splitOnC sep cs := by rw [hr]; exact List.mem_cons_of_mem hd h1
        exact List.mem_cons_of_mem a (ih l hmem x hx)

/-- On ASCII content the fallible load succeeds and agrees with the total
model the engine embedding uses: `ValueError` is reachable only through
non-ASCII `isdigit`-passing characters. -/
lemma ledgerLoadLinesPy_ok_of_ascii (lines : List (List Char))
    (h : ∀ l ∈ lines, ∀ x ∈ l, x.toNat < 128) :
    ledgerLoadLinesPy lines = some
      ((lines.filterMap
        (fun l => if goodLine l then some (parseChars (trimChars l)) else none)).toFinset) := by
  induction lines with
  | nil => rfl
  | cons l ls ih =>
    have hl : ∀ x ∈ l, x.toNat < 128 := h l (List.mem_cons_self l ls)
    have htail : ∀ l' ∈ ls, ∀ x ∈ l', x.toNat < 128 :=
      fun l' hl' => h l' (List.mem_cons_of_mem l hl')
    have hgl : pyGoodLine l = goodLine l := by
      unfold pyGoodLine goodLine
      rw [all_congr_on (fun x hx =>
        pyIsDigit_eq_isDigitC_of_ascii x (hl x (mem_of_mem_trimChars x l hx)))]
    by_cases hg : goodLine l = true
    · have hip : intParseOK (trimChars l) = true := by
        unfold goodLine at hg
        unfold intParseOK
        exact hg
      simp only [ledgerLoadLinesPy, hgl, hg, hip, if_true]
      rw [ih htail]
      simp [List.filterMap_cons, hg, List.toFinset_cons]
    · have hg' : goodLine l = false := by
        cases hq : goodLine l
        · rfl
        · exact absurd hq hg
      simp only [ledgerLoadLinesPy, hgl, hg', if_false]
      rw [ih htail]
      congr 1
      simp [List.filterMap_cons, hg']

lemma ledgerLoadPy_ok_of_ascii (c : List Char) (h : ∀ x ∈ c, x.toNat < 128) :
    ledgerLoadPy (some c) = some (ledgerLoadContent c) := by
  show ledgerLoadLinesPy (splitOnC '\n' c) = some (ledgerLoadContent c)
  exact ledgerLoadLinesPy_ok_of_ascii (splitOnC '\n' c)
    (fun l hl x hx => h x (mem_of_mem_splitOnC '\n' c l hl x hx))

lemma linesOf_ascii (ids : List Nat) : ∀ x ∈ linesOf ids, x.toNat < 128 := by
  induction ids with
  | nil => intro x hx; cases hx
  | cons i is ih =>
    intro x hx
    simp only [linesOf, List.mem_append, List.mem_cons] at hx
    rcases hx with hx | hx | hx
    · have hd := natToChars_all_digit i x hx
      unfold isDigitC at hd
      simp only [Bool.and_eq_true, decide_eq_true_eq] at hd
      omega
    · subst hx; decide
    · exact ih x hx

/-- The fallible load round-trips a well-formed one-ID-per-line file. -/
lemma ledgerLoadPy_linesOf (ids : List Nat) :
    ledgerLoadPy (some (linesOf ids)) = some ids.toFinset := by
  rw [ledgerLoadPy_ok_of_ascii (linesOf ids) (linesOf_ascii ids), ledgerLoadContent_linesOf]

/-- `'²'` (U+00B2 SUPERSCRIPT TWO): Python `str.isdigit` accepts it
(Numeric_Type=Digit) but `int()` raises `ValueError` on it. -/
def superTwo : Char := Char.ofNat 178

/-- **C8** (evidence): the claim says a malformed or missing ledger file
yields an empty set and the load never fails the run.  A ledger file whose
single line is `"²"` (U+00B2) passes the `line.strip().isdigit()` guard of
line 81, but `int(line.strip())` raises `ValueError` on it, so the load —
and with it the run, which catches nothing here — fails on this malformed
file.  The parts the code does satisfy are computed as well: a missing
file and a file with no guard-passing line yield the empty set, and a
well-formed one-ID-per-line file loads as exactly its recorded IDs. -/
theorem C8_isdigit_passing_line_crashes_load :
    pyGoodLine [superTwo] = true ∧
    intParseOK (trimChars [superTwo]) = false ∧
    ledgerLoadPy (some [superTwo]) = none ∧
    ledgerLoadPy none = some ∅ ∧
    ledgerLoadPy (some ['x', 'y']) = some ∅ ∧
    ledgerLoadPy (some (linesOf [2, 3])) = some (([2, 3] : List Nat).toFinset) := by
  decide

/-- **C9**: during a run the in-memory settled-ID set only grows (no step
removes an entry), and no message ID is written to the ledger handle more
than once — the run's write log is duplicate-free, because membership in
the set is checked before every settle action. -/
theorem C9_set_grows_and_no_duplicate_writes (fetch : Nat → Nat → FetchResult)
    (lf : Option (List Char)) (dl : List (List Char)) (msgs : List Message) :
    (∀ s ms, s.downloadedIds ⊆ (runLoop fetch s ms).1.downloadedIds) ∧
    (download_media fetch lf dl msgs).1.ledgerWrites.Nodup := by
  refine ⟨fun s ms => runLoop_downloadedIds_mono fetch ms s, ?_⟩
  have hw := runLoop_writes_nodup fetch msgs (initState lf dl)
    (by simp [initState]) (by simp [initState])
  rw [(download_media_state_fields fetch lf dl msgs).2.2.2.1]
  exact hw.1

/-- **C10**: for a message whose first fetch rate-limits and whose single
retry succeeds with artifact path `p`, the engine state equals the state of
an immediately-successful fetch of the same artifact, in every observable
component: counter, settled set, ledger handle, write log, snapshot, and
the continue flag.  When the download guards hold (media, not settled, no
artifact yet), each component changes exactly once: counter +1, ID inserted
and written once, snapshot extended with the one artifact basename. -/
theorem C10_retry_success_equals_immediate_success
    (fetch1 fetch2 : Nat → Nat → FetchResult) (s : SyncState) (m : Message)
    (w : Nat) (p : List Char)
    (h1 : fetch1 m.id 0 = FetchResult.rateLimited w)
    (h2 : fetch1 m.id 1 = FetchResult.success p)
    (h3 : fetch2 m.id 0 = FetchResult.success p) :
    ((processMessage fetch1 s m).1.count = (processMessage fetch2 s m).1.count ∧
     (processMessage fetch1 s m).1.downloadedIds = (processMessage fetch2 s m).1.downloadedIds ∧
     (processMessage fetch1 s m).1.recordFp = (processMessage fetch2 s m).1.recordFp ∧
     (processMessage fetch1 s m).1.existingFiles = (processMessage fetch2 s m).1.existingFiles ∧
     (processMessage fetch1 s m).1.ledgerWrites = (processMessage fetch2 s m).1.ledgerWrites ∧
     (processMessage fetch1 s m).2 = (processMessage fetch2 s m).2) ∧
    (m.hasMedia = true → m.id ∉ s.downloadedIds →
      s.existingFiles.any (probeMatch m.id) = false →
      (processMessage fetch1 s m).1.count = s.count + 1 ∧
      (processMessage fetch1 s m).1.downloadedIds = insert m.id s.downloadedIds ∧
      (processMessage fetch1 s m).1.ledgerWrites = s.ledgerWrites ++ [m.id] ∧
      (processMessage fetch1 s m).1.existingFiles = s.existingFiles ++ [basename p]) := by
  by_cases hm : m.hasMedia = false
  · have e1 : processMessage fetch1 s m = (s, false) := by
      unfold processMessage; simp [hm]
    have e2 : processMessage fetch2 s m = (s, false) := by
      unfold processMessage; simp [hm]
    refine ⟨by rw [e1, e2]; exact ⟨rfl, rfl, rfl, rfl, rfl, rfl⟩, ?_⟩
    intro hmt
    rw [hmt] at hm
    exact absurd hm (by decide)
  · by_cases hld : m.id ∈ s.downloadedIds
    · have e1 : processMessage fetch1 s m = (s, false) := by
        unfold processMessage; simp [hm, hld]
      have e2 : processMessage fetch2 s m = (s, false) := by
        unfold processMessage; simp [hm, hld]
      refine ⟨by rw [e1, e2]; exact ⟨rfl, rfl, rfl, rfl, rfl, rfl⟩, ?_⟩
      intro _ hld2
      exact absurd hld hld2
    · by_cases hany : s.existingFiles.any (probeMatch m.id) = true
      · have e1 : processMessage fetch1 s m = (settleUpdate s m.id, false) := by
          unfold processMessage; simp [hm, hld, hany]
        have e2 : processMessage fetch2 s m = (settleUpdate s m.id, false) := by
          unfold processMessage; simp [hm, hld, hany]
        refine ⟨by rw [e1, e2]; exact ⟨rfl, rfl, rfl, rfl, rfl, rfl⟩, ?_⟩
        intro _ _ hany2
        rw [hany] at hany2
        exact absurd hany2 (by decide)
      · have hany' : s.existingFiles.any (probeMatch m.id) = false := by
          cases ha : s.existingFiles.any (probeMatch m.id)
          · rfl
          · exact absurd ha hany
        have e1 : processMessage fetch1 s m =
            (downloadUpdate (logFetch (logFetch s m.id) m.id) m.id (basename p), false) := by
          unfold processMessage; simp [hm, hld, hany', h1, h2]
        have e2 : processMessage fetch2 s m =
            (downloadUpdate (logFetch s m.id) m.id (basename p), false) := by
          unfold processMessage; simp [hm, hld, hany', h3]
        refine ⟨?_, ?_⟩
        · rw [e1, e2]
          exact ⟨by simp, by simp, by simp, by simp, by simp, rfl⟩
        · intro _ _ _
          rw [e1]
          exact ⟨by simp, by simp, by simp, by simp⟩

/-- Closed instance of `C10_retry_success_equals_immediate_success`. -/
theorem C10_retry_success_equals_immediate_success_witness :
    ((processMessage fetchRLthenOK (initState none []) ⟨5, true⟩).1.count =
        (processMessage fetchJpg (initState none []) ⟨5, true⟩).1.count ∧
     (processMessage fetchRLthenOK (initState none []) ⟨5, true⟩).1.downloadedIds =
        (processMessage fetchJpg (initState none []) ⟨5, true⟩).1.downloadedIds ∧
     (processMessage fetchRLthenOK (initState none []) ⟨5, true⟩).1.recordFp =
        (processMessage fetchJpg (initState none []) ⟨5, true⟩).1.recordFp ∧
     (processMessage fetchRLthenOK (initState none []) ⟨5, true⟩).1.existingFiles =
        (processMessage fetchJpg (initState none []) ⟨5, true⟩).1.existingFiles ∧
     (processMessage fetchRLthenOK (initState none []) ⟨5, true⟩).1.ledgerWrites =
        (processMessage fetchJpg (initState none []) ⟨5, true⟩).1.ledgerWrites ∧
     (processMessage fetchRLthenOK (initState none []) ⟨5, true⟩).2 =
        (processMessage fetchJpg (initState none []) ⟨5, true⟩).2) ∧
    ((⟨5, true⟩ : Message).hasMedia = true →
      (⟨5, true⟩ : Message).id ∉ (initState none []).downloadedIds →
      (initState none []).existingFiles.any (probeMatch (⟨5, true⟩ : Message).id) = false →
      (processMessage fetchRLthenOK (initState none []) ⟨5, true⟩).1.count =
        (initState none []).count + 1 ∧
      (processMessage fetchRLthenOK (initState none []) ⟨5, true⟩).1.downloadedIds =
        insert (⟨5, true⟩ : Message).id (initState none []).downloadedIds ∧
      (processMessage fetchRLthenOK (initState none []) ⟨5, true⟩).1.ledgerWrites =
        (initState none []).ledgerWrites ++ [(⟨5, true⟩ : Message).id] ∧
      (processMessage fetchRLthenOK (initState none []) ⟨5, true⟩).1.existingFiles =
        (initState none []).existingFiles ++
          [basename (natToChars 5 ++ ['.', 'j', 'p', 'g'])]) :=
  C10_retry_success_equals_immediate_success fetchRLthenOK fetchJpg
    (initState none []) ⟨5, true⟩ 2 (natToChars 5 ++ ['.', 'j', 'p', 'g'])
    (by decide) (by decide) (by decide)
